import Mathlib

/-!
Verification of the type-dependency closure and extension-classification
engine of `extract_vulkan_extensions.py` (Fossilize).

The Python source is shallow-embedded below.  Python dictionaries become
association lists (`List (String × _)`, looked up with `List.lookup`),
Python sets become `List String` treated up to membership, and the two
recursive procedures of the source (`traverse_active_struct_type` and
`struct_extends_any`, whose Python originals recurse without a structural
measure) are embedded with an explicit fuel argument; the top-level
entry points instantiate the fuel with `table.length + 1`, which the
termination theorems below prove to be sufficient.
-/

/-- Embeds the Python namedtuple `StructType(extends, member_types)`.
`extends` is a Lean keyword, so the field is called `extends_`. -/
structure StructType where
  extends_ : List String
  member_types : List String
deriving DecidableEq, Repr

/-- The `struct_types` dictionary of the source: structure name to record. -/
abbrev StructTable := List (String × StructType)

/-- `t in mapping` of the source: the name is a key of the structure table. -/
def isKnown (mapping : StructTable) (t : String) : Bool :=
  (List.lookup t mapping).isSome

/-- `mapping[t].member_types` of the source (empty for unknown names; the
source only evaluates it after an `in` check). -/
def memberTypes (mapping : StructTable) (t : String) : List String :=
  match List.lookup t mapping with
  | some st => st.member_types
  | none => []

/-- `mappings[t].extends` of the source (empty for unknown names; the
source only evaluates it after an `in` check). -/
def extendsOf (mappings : StructTable) (t : String) : List String :=
  match List.lookup t mappings with
  | some st => st.extends_
  | none => []

/-- Embeds `traverse_active_struct_type(active_types, t, mapping)` of the
source, with an explicit recursion-depth budget `fuel`.  The Python body:
return if `t` is unknown or already visited, otherwise add `t` to the
visited set and recurse into every member type. -/
def traverse_active_struct_type : Nat → List String → String → StructTable → List String
  | 0, active_types, _, _ => active_types
  | fuel + 1, active_types, t, mapping =>
    match List.lookup t mapping with
    | none => active_types
    | some st =>
      if t ∈ active_types then active_types
      else st.member_types.foldl
        (fun acc m => traverse_active_struct_type fuel acc m mapping) (t :: active_types)

/-- Embeds `traverse_active_struct_types(base_types, mapping)`: fold the
single-type traversal over the root set, starting from the empty visited
set.  The fuel `mapping.length + 1` is sufficient (theorem `c8_terminates`). -/
def traverse_active_struct_types (base_types : List String) (mapping : StructTable) : List String :=
  base_types.foldl
    (fun acc t => traverse_active_struct_type (mapping.length + 1) acc t mapping) []

/-- Number of table keys not yet in the visited set: the measure that
shrinks on every recursive visit of the traversal. -/
def unvisitedCount (mapping : StructTable) (active : List String) : Nat :=
  ((mapping.map Prod.fst).filter (fun k => decide (k ∉ active))).length

/-- The member-closure rule of the spec, as an inductive predicate: the
smallest set containing every root that is a known structure and closed
under "a known member type of an element is an element". -/
inductive ActiveClosure (mapping : StructTable) (R : List String) : String → Prop where
  | root (t : String) (ht : t ∈ R) (hk : isKnown mapping t = true) :
      ActiveClosure mapping R t
  | member (s m : String) (hs : ActiveClosure mapping R s)
      (hm : m ∈ memberTypes mapping s) (hk : isKnown mapping m = true) :
      ActiveClosure mapping R m

/-- A set is closed under the spec's member rule. -/
def ClosedUnderMembers (mapping : StructTable) (S : Set String) : Prop :=
  ∀ s ∈ S, ∀ m ∈ memberTypes mapping s, isKnown mapping m = true → m ∈ S

/-- `S` is the smallest set that contains `R` and is closed under the
member rule — the spec's literal description of ActiveTypes. -/
def IsSmallestClosedContaining (mapping : StructTable) (R : List String) (S : Set String) : Prop :=
  (∀ t ∈ R, t ∈ S) ∧ ClosedUnderMembers mapping S ∧
    ∀ T : Set String, (∀ t ∈ R, t ∈ T) → ClosedUnderMembers mapping T → S ⊆ T

/-- Concrete table for evaluation: `A` has members `B` (known) and `C`
(unknown); `B` has no members. -/
def demoTable : StructTable :=
  [("A", ⟨[], ["B", "C"]⟩), ("B", ⟨[], []⟩)]

/-- Concrete table whose member relation is cyclic: `A` and `B` refer to
each other. -/
def cycTable : StructTable :=
  [("A", ⟨[], ["B"]⟩), ("B", ⟨[], ["A"]⟩)]

/-- Embeds `struct_extends_any(active_types, t, mappings)` of the source,
with an explicit recursion-depth budget: an unknown `t` yields false,
otherwise the test succeeds when some `e` in the EXTENDS set of `t` is in
the active set or recursively satisfies the same test. -/
def struct_extends_any_fuel : Nat → List String → String → StructTable → Bool
  | 0, _, _, _ => false
  | fuel + 1, active_types, t, mappings =>
    match List.lookup t mappings with
    | none => false
    | some st =>
      st.extends_.any (fun e =>
        decide (e ∈ active_types) || struct_extends_any_fuel fuel active_types e mappings)

/-- Top-level `struct_extends_any`: the fuel `mappings.length + 1` is
sufficient whenever the EXTENDS relation is acyclic, because an acyclic
chain of known structures cannot be longer than the number of table keys. -/
def struct_extends_any (active_types : List String) (t : String) (mappings : StructTable) : Bool :=
  struct_extends_any_fuel (mappings.length + 1) active_types t mappings

/-- Embeds `find_extending_structs(active_types, mappings)`: every key of
the table that passes `struct_extends_any` contributes its whole
member-closure to the extending set. -/
def find_extending_structs (active_types : List String) (mappings : StructTable) : List String :=
  mappings.foldl
    (fun acc p =>
      if struct_extends_any active_types p.1 mappings then
        acc ++ traverse_active_struct_types [p.1] mappings
      else acc) []

/-- The spec's "extending structure" relation: EXTENDS(X) meets the active
set directly, or through a chain of other extending structures. -/
inductive Qualifies (mappings : StructTable) (active_types : List String) : String → Prop where
  | direct (t e : String) (hk : isKnown mappings t = true)
      (he : e ∈ extendsOf mappings t) (ha : e ∈ active_types) :
      Qualifies mappings active_types t
  | chain (t e : String) (hk : isKnown mappings t = true)
      (he : e ∈ extendsOf mappings t) (hq : Qualifies mappings active_types e) :
      Qualifies mappings active_types t

/-- Acyclicity of the EXTENDS relation, as the existence of a rank that
strictly decreases along every EXTENDS edge leaving a known structure. -/
def ExtendsAcyclic (mappings : StructTable) : Prop :=
  ∃ rank : String → Nat, ∀ t st, List.lookup t mappings = some st →
    ∀ e ∈ st.extends_, rank e < rank t

/-- Number of distinct `rank` values of table keys strictly below the rank
of `t`; bounds the length of descending EXTENDS chains of known structures. -/
def rankBelow (mappings : StructTable) (rank : String → Nat) (t : String) : Nat :=
  (((mappings.map Prod.fst).map rank).toFinset.filter (fun r => r < rank t)).card

/-- Embeds `type_aliases.get(x, x)` of the source. -/
def resolveAlias (aliases : List (String × String)) (x : String) : String :=
  (List.lookup x aliases).getD x

/-- One `<enum>` element inside a requirement block: its raw `name`
attribute and its optional `extends` attribute. -/
structure EnumRef where
  name : String
  extends_ : Option String
deriving DecidableEq, Repr

/-- One `<require>` block of an extension: type references and enum-value
references, in document order. -/
structure RequireBlock where
  types : List String
  enums : List EnumRef
deriving DecidableEq, Repr

/-- The five per-extension accumulator lists of the Additions loop. -/
structure Additions where
  new_structs : List String
  new_enums : List String
  extended_enums : List (String × String)
  feature_structs : List String
  property_structs : List String
deriving DecidableEq, Repr

/-- Embeds the per-type-reference body of the Additions loop (source lines
190-205): resolve the alias, classify as new struct / new enum unless
cherry-picked, and flag feature/property structures regardless. -/
def process_type_ref (aliases : List (String × String)) (struct_types : StructTable)
    (active_types extending_types active_enums cherry_picked : List String)
    (a : Additions) (raw : String) : Additions :=
  let type_name := resolveAlias aliases raw
  let a1 :=
    if type_name ∈ active_types ∨ type_name ∈ extending_types then
      if type_name ∉ cherry_picked then
        { a with new_structs := a.new_structs ++ [type_name] }
      else a
    else if type_name ∈ active_enums then
      if type_name ∉ cherry_picked then
        { a with new_enums := a.new_enums ++ [type_name] }
      else a
    else a
  if isKnown struct_types type_name then
    let exts := extendsOf struct_types type_name
    let a2 :=
      if "VkPhysicalDeviceFeatures2" ∈ exts then
        { a1 with feature_structs := a1.feature_structs ++ [type_name] }
      else a1
    if "VkPhysicalDeviceProperties2" ∈ exts then
      { a2 with property_structs := a2.property_structs ++ [type_name] }
    else a2
  else a1

/-- Embeds the per-enum-reference body of the Additions loop (source lines
207-212).  Note the order of operations, faithful to the source: the
cherry-pick test is on the raw name, and only afterwards is the alias
resolved. -/
def process_enum_ref (aliases : List (String × String))
    (active_enums cherry_picked : List String)
    (a : Additions) (er : EnumRef) : Additions :=
  if er.name ∉ cherry_picked then
    let enum_name := resolveAlias aliases er.name
    match er.extends_ with
    | some tgt =>
      if tgt ∈ active_enums then
        { a with extended_enums := a.extended_enums ++ [(tgt, enum_name)] }
      else a
    | none => a
  else a

/-- Embeds the requirement-block scan of one extension in the Additions
loop: type references of each block, then its enum references. -/
def collect_additions (aliases : List (String × String)) (struct_types : StructTable)
    (active_types extending_types active_enums cherry_picked : List String)
    (blocks : List RequireBlock) : Additions :=
  blocks.foldl
    (fun a blk =>
      blk.enums.foldl (process_enum_ref aliases active_enums cherry_picked)
        (blk.types.foldl
          (process_type_ref aliases struct_types active_types extending_types
            active_enums cherry_picked) a))
    ⟨[], [], [], [], []⟩

/-- Derived closed form: contribution of one type reference to
`new_structs`. -/
def new_struct_contrib (aliases : List (String × String))
    (active_types extending_types cherry_picked : List String) (raw : String) : List String :=
  let r := resolveAlias aliases raw
  if (r ∈ active_types ∨ r ∈ extending_types) ∧ r ∉ cherry_picked then [r] else []

/-- Derived closed form: contribution of one type reference to
`new_enums`. -/
def new_enum_contrib (aliases : List (String × String))
    (active_types extending_types active_enums cherry_picked : List String)
    (raw : String) : List String :=
  let r := resolveAlias aliases raw
  if (r ∉ active_types ∧ r ∉ extending_types) ∧ r ∈ active_enums ∧ r ∉ cherry_picked then
    [r]
  else []

/-- Derived closed form: contribution of one type reference to
`feature_structs`. -/
def feature_contrib (aliases : List (String × String)) (struct_types : StructTable)
    (raw : String) : List String :=
  let r := resolveAlias aliases raw
  if isKnown struct_types r = true ∧ "VkPhysicalDeviceFeatures2" ∈ extendsOf struct_types r then
    [r]
  else []

/-- Derived closed form: contribution of one type reference to
`property_structs`. -/
def property_contrib (aliases : List (String × String)) (struct_types : StructTable)
    (raw : String) : List String :=
  let r := resolveAlias aliases raw
  if isKnown struct_types r = true ∧ "VkPhysicalDeviceProperties2" ∈ extendsOf struct_types r then
    [r]
  else []

/-- Derived closed form: contribution of one enum reference to
`extended_enums`. -/
def extended_enum_contrib (aliases : List (String × String))
    (active_enums cherry_picked : List String) (er : EnumRef) : List (String × String) :=
  if er.name ∉ cherry_picked then
    match er.extends_ with
    | some tgt =>
      if tgt ∈ active_enums then [(tgt, resolveAlias aliases er.name)] else []
    | none => []
  else []

/-- Embeds the section emission for one extension in the Additions loop
(source lines 214-224): the section is printed only when at least one new
struct, new enum or enum-value pair was collected.  The lookups of
`extends` for the new structs are total here via `extendsOf`; theorem
`c9_domain` shows the names are always table keys when produced by the
engine. -/
def extension_section (aliases : List (String × String)) (struct_types : StructTable)
    (active_types extending_types active_enums cherry_picked : List String)
    (ext_name : String) (blocks : List RequireBlock) : List String :=
  let a := collect_additions aliases struct_types active_types extending_types
    active_enums cherry_picked blocks
  if a.new_structs.length + a.new_enums.length + a.extended_enums.length > 0 then
    ["=== " ++ ext_name ++ " ==="] ++
    a.new_structs.map
      (fun s => "\t" ++ s ++ " extends " ++
        String.intercalate ", " (extendsOf struct_types s)) ++
    a.new_enums.map (fun s => "\t" ++ s) ++
    a.extended_enums.map (fun p => "\t" ++ p.1 ++ " adds " ++ p.2) ++
    ["   Feature: " ++ String.intercalate ", " a.feature_structs,
     "  Property: " ++ String.intercalate ", " a.property_structs,
     ""]
  else []

/-- One `<extension>` element: name, the comma-split `supported` attribute
and the requirement blocks. -/
structure ExtensionDecl where
  name : String
  supported : List String
  requires_ : List RequireBlock
deriving DecidableEq, Repr

/-- Embeds the Additions loop over all extensions (source lines 178-224):
extensions not supporting `vulkan` are skipped, completed or ignored
extensions are skipped, the rest contribute their section. -/
def additions_report (aliases : List (String × String)) (struct_types : StructTable)
    (active_types extending_types active_enums cherry_picked : List String)
    (completed_extensions ignored_extensions : List String)
    (exts : List ExtensionDecl) : List String :=
  exts.foldl
    (fun out ext =>
      if "vulkan" ∈ ext.supported then
        if ext.name ∈ completed_extensions ∨ ext.name ∈ ignored_extensions then out
        else out ++ extension_section aliases struct_types active_types extending_types
          active_enums cherry_picked ext.name ext.requires_
      else out) []

/-- Embeds the Completed-extensions status loop (source lines 168-175). -/
def completed_section (completed_extensions ignored_extensions : List String)
    (exts : List ExtensionDecl) : List String :=
  exts.foldl
    (fun out ext =>
      if "vulkan" ∈ ext.supported then
        if ext.name ∈ completed_extensions then out ++ [ext.name ++ " || Completed"]
        else if ext.name ∈ ignored_extensions then out ++ [ext.name ++ " || Ignored"]
        else out
      else out) []

/-- One parsed `<type>` declaration of the registry, as consumed by the
model-building loop (source lines 106-140). -/
inductive RawType where
  | structDecl (name : String) (structextends : Option (List String))
      (first_member_values : String) (member_types : List String)
  | enumDecl (name : String)
  | bitmaskReq (name : String) (requiresTarget : String)
  | otherDecl
deriving DecidableEq, Repr

/-- The tables built by the model-building loop, together with the
accumulated `shallow_copy_pnext_size_lut` string. -/
structure BuiltModel where
  struct_types : StructTable
  enum_types : List String
  bitmask_requirements : List (String × String)
  shallow_copy_pnext_size_lut : String
deriving DecidableEq, Repr

/-- The `top_level_types_pipeline` set of the source. -/
def top_level_types_pipeline : List String :=
  ["VkGraphicsPipelineCreateInfo", "VkComputePipelineCreateInfo",
   "VkRayTracingPipelineCreateInfoKHR", "VkDeviceCreateInfo"]

/-- The `top_level_types` root set of the source. -/
def top_level_types : List String :=
  ["VkGraphicsPipelineCreateInfo", "VkComputePipelineCreateInfo",
   "VkRayTracingPipelineCreateInfoKHR", "VkRenderPassCreateInfo",
   "VkRenderPassCreateInfo2", "VkDescriptorSetLayoutCreateInfo",
   "VkSamplerCreateInfo", "VkShaderModuleCreateInfo",
   "VkPipelineLayoutCreateInfo"]

/-- One size-table row, the literal text accumulated by the source:
`'{ ' + stype + ', sizeof(' + name + ') },\n'`. -/
def lut_row (stype name : String) : String :=
  "\x7b " ++ stype ++ ", sizeof(" ++ name ++ ") \x7d,\n"

/-- Embeds one iteration of the model-building loop (source lines
106-140): struct declarations record resolved EXTENDS and member types and
may append one size-table row; enum declarations record the resolved name
unless it is one of the three distinguished universal enumerations;
bitmask declarations with a requirement record it. -/
def build_step (aliases : List (String × String)) (m : BuiltModel) (t : RawType) : BuiltModel :=
  match t with
  | .structDecl name se fmv mts =>
    let extends_ := match se with
      | none => ([] : List String)
      | some xs => xs.map (resolveAlias aliases)
    let lut := match se with
      | none => m.shallow_copy_pnext_size_lut
      | some xs =>
        if (xs.map (resolveAlias aliases)).any
            (fun e => decide (e ∈ top_level_types_pipeline)) then
          m.shallow_copy_pnext_size_lut ++ lut_row fmv name
        else m.shallow_copy_pnext_size_lut
    let member_types := mts.map (resolveAlias aliases)
    { m with struct_types := m.struct_types ++ [(name, ⟨extends_, member_types⟩)],
             shallow_copy_pnext_size_lut := lut }
  | .enumDecl name =>
    let n := resolveAlias aliases name
    if n ≠ "VkStructureType" ∧ n ≠ "VkFormat" ∧ n ≠ "VkObjectType" then
      { m with enum_types := m.enum_types ++ [n] }
    else m
  | .bitmaskReq name req =>
    { m with bitmask_requirements := m.bitmask_requirements ++ [(name, req)] }
  | .otherDecl => m

/-- Embeds the whole model-building loop. -/
def build_model (aliases : List (String × String)) (types : List RawType) : BuiltModel :=
  types.foldl (build_step aliases) ⟨[], [], [], ""⟩

/-- Derived closed form: the size-table text contributed by one type
declaration. -/
def lut_contrib (aliases : List (String × String)) (t : RawType) : String :=
  match t with
  | .structDecl name se fmv _ =>
    match se with
    | some xs =>
      if (xs.map (resolveAlias aliases)).any
          (fun e => decide (e ∈ top_level_types_pipeline)) then
        lut_row fmv name
      else ""
    | none => ""
  | _ => ""

/-- Embeds `find_active_enum_types` of the source (lines 43-60): for every
member type of an active or extending structure, a bitmask with a recorded
requirement contributes its required enum, else a known enum contributes
itself. -/
def find_active_enum_types (active_types extending_types : List String)
    (mappings : StructTable) (enum_types : List String)
    (bitmask_reqs : List (String × String)) : List String :=
  let scan := fun (start : List String) (ts : List String) =>
    ts.foldl
      (fun acc t =>
        (memberTypes mappings t).foldl
          (fun acc m =>
            match List.lookup m bitmask_reqs with
            | some r => acc ++ [r]
            | none => if m ∈ enum_types then acc ++ [m] else acc) acc)
      start
  scan (scan [] active_types) extending_types

/-- One `<enable>` element of a SPIR-V extension: optional `version` and
`extension` attributes (the only attributes the extension-table loop
reads). -/
structure SpirvEnable where
  version : Option String
  extension : Option String
deriving DecidableEq, Repr

/-- One `<spirvextension>` element. -/
structure SpirvExtension where
  name : String
  enables : List SpirvEnable
deriving DecidableEq, Repr

/-- Embeds the enable scan of one SPIR-V extension (source lines 230-236):
a second enabling-extension condition raises, aborting the run. -/
def scan_enables : List SpirvEnable → Option String → Option String →
    Except String (Option String × Option String)
  | [], core_version, vkext => .ok (core_version, vkext)
  | en :: rest, core_version, vkext =>
    let core_version := match en.version with
      | some v => some v
      | none => core_version
    match en.extension with
    | some e =>
      match vkext with
      | some _ => .error "Cannot have more than one extension per SPIR-V extension."
      | none => scan_enables rest core_version (some e)
    | none => scan_enables rest core_version vkext

/-- Python's `str(None)` rendering of the optional enabling extension. -/
def optValueStr : Option String → String
  | none => "None"
  | some s => s

/-- One row of the SPIR-V extension table (source line 237). -/
def spirv_ext_row (name : String) (core_version vkext : Option String) : String :=
  "\x7b " ++ "\"" ++ name ++ "\", \"" ++ optValueStr vkext ++ "\", " ++
    (match core_version with
     | some v => "VK_API" ++ v.drop 2
     | none => "0") ++ " \x7d,"

/-- Embeds the SPIR-V extension-table loop (source lines 226-237): rows
are printed one extension at a time; the raise aborts the loop, keeping
the rows already printed and discarding the offending extension's row and
everything after it. -/
def spirv_extensions_table : List SpirvExtension → List String × Option String
  | [] => ([], none)
  | ext :: rest =>
    match scan_enables ext.enables none none with
    | .error msg => ([], some msg)
    | .ok (core_version, vkext) =>
      let res := spirv_extensions_table rest
      (spirv_ext_row ext.name core_version vkext :: res.1, res.2)

/-- One `<enable>` element of a SPIR-V capability (source lines 250-263):
the attributes the missing-capabilities loop reads. -/
structure CapEnable where
  version : Option String
  feature : Option (String × String)
  property : Option (String × String × String)
  requires_ : Option String
  extension : Option String
deriving DecidableEq, Repr

/-- One `<spirvcapability>` element. -/
structure SpirvCapability where
  name : String
  enables : List CapEnable
deriving DecidableEq, Repr

/-- Python `repr` of a list of strings, as printed for the `requires`
companions. -/
def pyListRepr (xs : List String) : String :=
  "[" ++ String.intercalate ", " (xs.map (fun s => "\x27" ++ s ++ "\x27")) ++ "]"

/-- The lines printed for one enable-condition of a missing SPIR-V
capability (source lines 250-263). -/
def cap_enable_lines (en : CapEnable) : List String :=
  (match en.version with
   | some v => ["\tCore version: " ++ v]
   | none => []) ++
  (match en.feature with
   | some fp =>
     ["\tVulkan feature: " ++ fp.1 ++ "::" ++ fp.2] ++
     (match en.requires_ with
      | some r => ["\t          from: " ++ pyListRepr (r.splitOn ",")]
      | none => [])
   | none => []) ++
  (match en.property with
   | some pp =>
     ["\tVulkan property: " ++ pp.1 ++ "::" ++ pp.2.1 ++ " sets " ++ pp.2.2] ++
     (match en.requires_ with
      | some r => ["\t          from: " ++ pyListRepr (r.splitOn ",")]
      | none => [])
   | none => []) ++
  (match en.extension with
   | some e => ["\tVulkan extension: " ++ e]
   | none => [])

/-- Embeds the Completed SPIR-V capabilities loop (source lines 239-242). -/
def completed_caps_section (completed_spirv : List String)
    (caps : List SpirvCapability) : List String :=
  caps.foldl
    (fun out c =>
      if c.name ∈ completed_spirv then out ++ [c.name ++ " || Complete"] else out) []

/-- Embeds the Missing SPIR-V capabilities loop (source lines 244-263). -/
def missing_caps_section (completed_spirv : List String)
    (caps : List SpirvCapability) : List String :=
  caps.foldl
    (fun out c =>
      if c.name ∈ completed_spirv then out
      else out ++ [c.name] ++ c.enables.foldl (fun acc en => acc ++ cap_enable_lines en) [])
    []

/-- The fully parsed registry document, as consumed by `main`. -/
structure Registry where
  aliases : List (String × String)
  types : List RawType
  extensions : List ExtensionDecl
  spirvextensions : List SpirvExtension
  spirvcapabilities : List SpirvCapability
deriving DecidableEq, Repr

/-- The completed-work ledger: four optional name lists, each defaulting
to empty. -/
structure Ledger where
  extensions : Option (List String)
  fully_ignored : Option (List String)
  cherry_pick : Option (List String)
  spirvcapabilities : Option (List String)
deriving DecidableEq, Repr

/-- Every line `main` prints before the SPIR-V extension-table rows, in
print order (source lines 142-226).  Each `print(...)` call becomes one
list element. -/
def report_head (reg : Registry) (ledger : Ledger) : List String :=
  let model := build_model reg.aliases reg.types
  let active_types := traverse_active_struct_types top_level_types model.struct_types
  let extending_types := find_extending_structs active_types model.struct_types
  let active_enums := find_active_enum_types active_types extending_types
    model.struct_types model.enum_types model.bitmask_requirements
  let completed_extensions := ledger.extensions.getD []
  let ignored_extensions := ledger.fully_ignored.getD []
  let cherry_picked := ledger.cherry_pick.getD []
  ["\n\n=== pNext LUT ===", model.shallow_copy_pnext_size_lut] ++
  ["\n\n=== Base Types ==="] ++ active_types ++
  ["\n\n=== Extending Types ==="] ++ extending_types ++
  ["\n\n=== Active Enums ==="] ++ active_enums ++
  ["\n\n=== Completed extensions ==="] ++
    completed_section completed_extensions ignored_extensions reg.extensions ++
  ["\n\n=== Additions ==="] ++
    additions_report reg.aliases model.struct_types active_types extending_types
      active_enums cherry_picked completed_extensions ignored_extensions reg.extensions ++
  ["\n\n=== SPIR-V extensions table ==="]

/-- Embeds the output behaviour of `main` (source lines 142-263): the
lines printed to standard output, and the error message if the run aborted
inside the SPIR-V extension-table loop.  Printing is sequential, so on
abort the earlier sections and the table rows already printed remain. -/
def main_report (reg : Registry) (ledger : Ledger) : List String × Option String :=
  match spirv_extensions_table reg.spirvextensions with
  | (rows, some msg) => (report_head reg ledger ++ rows, some msg)
  | (rows, none) =>
    (report_head reg ledger ++ rows ++
      ["\n\n=== Completed SPIR-V capabilities ==="] ++
        completed_caps_section (ledger.spirvcapabilities.getD []) reg.spirvcapabilities ++
      ["\n\n=== Missing SPIR-V capabilities ==="] ++
        missing_caps_section (ledger.spirvcapabilities.getD []) reg.spirvcapabilities,
     none)

/-- Concrete table for the extends classifier: `X` extends `Y`, `Y`
extends nothing. -/
def tbl2 : StructTable := [("X", ⟨["Y"], []⟩), ("Y", ⟨[], []⟩)]

/-- Concrete alias map: the raw enum-value name `E_raw` resolves to
`E_canon`. -/
def aliases3 : List (String × String) := [("E_raw", "E_canon")]

/-- Concrete cherry-pick set containing only the canonical name. -/
def cherry3 : List String := ["E_canon"]

/-- Concrete active-enum set. -/
def aenums3 : List String := ["Target"]

/-- Concrete requirement block: one enum-value reference with raw name
`E_raw` extending `Target`. -/
def blocks3 : List RequireBlock := [⟨[], [⟨"E_raw", some "Target"⟩]⟩]

/-- Concrete requirement block referencing the active structure `S`. -/
def blocks3b : List RequireBlock := [⟨["S"], []⟩]

/-- Concrete requirement block whose names miss every active set. -/
def blocks6 : List RequireBlock := [⟨["X6"], [⟨"E6", some "T6"⟩]⟩]

/-- Concrete structure table where `F10` chains onto the device-feature
aggregator and `P10` onto the device-property aggregator. -/
def tbl10 : StructTable :=
  [("F10", ⟨["VkPhysicalDeviceFeatures2"], []⟩),
   ("P10", ⟨["VkPhysicalDeviceProperties2"], []⟩)]

/-- Concrete requirement block referencing both flagged structures. -/
def blocks10 : List RequireBlock := [⟨["F10", "P10"], []⟩]

/-- Concrete SPIR-V extension declaring two enabling-extension
conditions. -/
def ext4 : SpirvExtension := ⟨"SPV_X", [⟨none, some "VK_A"⟩, ⟨none, some "VK_B"⟩]⟩

/-- Concrete registry containing only the offending SPIR-V extension. -/
def reg4 : Registry := ⟨[], [], [], [ext4], []⟩

/-- The empty ledger (all four fields absent). -/
def ledger0 : Ledger := ⟨none, none, none, none⟩

-- ===== basic lemmas about the traversal =====

theorem foldl_grow_of {g : List String → String → List String}
    (hg : ∀ a m x, x ∈ a → x ∈ g a m) :
    ∀ (ms a : List String) (x : String), x ∈ a → x ∈ ms.foldl g a := by
  intro ms
  induction ms with
  | nil => intro a x hx; simpa using hx
  | cons m ms ih =>
    intro a x hx
    exact ih (g a m) x (hg a m x hx)

theorem trav_grow (mapping : StructTable) :
    ∀ (f : Nat) (a : List String) (t x : String),
      x ∈ a → x ∈ traverse_active_struct_type f a t mapping := by
  intro f
  induction f with
  | zero => intro a t x hx; simpa [traverse_active_struct_type] using hx
  | succ f ih =>
    intro a t x hx
    cases hlk : List.lookup t mapping with
    | none => simpa [traverse_active_struct_type, hlk] using hx
    | some st =>
      by_cases ht : t ∈ a
      · simpa [traverse_active_struct_type, hlk, ht] using hx
      · simp only [traverse_active_struct_type, hlk, ht, if_false]
        exact foldl_grow_of (fun a m x hx => ih a m x hx) st.member_types (t :: a) x
          (List.mem_cons_of_mem _ hx)

theorem trav_fold_grow (mapping : StructTable) (f : Nat) :
    ∀ (ms a : List String) (x : String), x ∈ a →
      x ∈ ms.foldl (fun acc m => traverse_active_struct_type f acc m mapping) a :=
  foldl_grow_of (fun a m x hx => trav_grow mapping f a m x hx)

theorem length_filter_mono {α : Type} (p q : α → Bool) :
    ∀ l : List α, (∀ x ∈ l, p x = true → q x = true) →
      (l.filter p).length ≤ (l.filter q).length := by
  intro l
  induction l with
  | nil => intro _; simp
  | cons y l ih =>
    intro h
    have ih' := ih (fun x hx hpx => h x (List.mem_cons_of_mem _ hx) hpx)
    rw [List.filter_cons, List.filter_cons]
    cases hp : p y with
    | false =>
      rw [if_neg (by simp [hp])]
      cases hq : q y with
      | false => rw [if_neg (by simp [hq])]; exact ih'
      | true => rw [if_pos (by simp [hq])]; simp only [List.length_cons]; omega
    | true =>
      have hq := h y (List.mem_cons_self _ _) hp
      rw [if_pos (by simp [hp]), if_pos (by simp [hq])]
      simp only [List.length_cons]; omega

theorem unvisited_le_length (mapping : StructTable) (active : List String) :
    unvisitedCount mapping active ≤ mapping.length := by
  unfold unvisitedCount
  calc ((mapping.map Prod.fst).filter (fun k => decide (k ∉ active))).length
      ≤ (mapping.map Prod.fst).length := List.length_filter_le _ _
    _ = mapping.length := List.length_map _ _

theorem unvisited_antimono (mapping : StructTable) {a b : List String}
    (h : ∀ x ∈ a, x ∈ b) :
    unvisitedCount mapping b ≤ unvisitedCount mapping a := by
  unfold unvisitedCount
  apply length_filter_mono
  intro x _ hx
  simp only [decide_eq_true_eq] at hx ⊢
  exact fun hxa => hx (h x hxa)

theorem isKnown_iff_exists {mapping : StructTable} {t : String} :
    isKnown mapping t = true ↔ ∃ p ∈ mapping, p.1 = t := by
  induction mapping with
  | nil => simp [isKnown, List.lookup]
  | cons p rest ih =>
    obtain ⟨k, v⟩ := p
    by_cases hkt : t = k
    · subst hkt; simp [isKnown, List.lookup]
    · have hbeq : (t == k) = false := by
        simpa using hkt
      simp only [isKnown, List.lookup, hbeq] at *
      rw [ih]
      constructor
      · rintro ⟨p, hp, rfl⟩
        exact ⟨p, List.mem_cons_of_mem _ hp, rfl⟩
      · rintro ⟨p, hp, rfl⟩
        rcases List.mem_cons.mp hp with h | h
        · exfalso; apply hkt; rw [h]
        · exact ⟨p, h, rfl⟩

theorem isKnown_mem_keys {mapping : StructTable} {t : String}
    (h : isKnown mapping t = true) : t ∈ mapping.map Prod.fst := by
  obtain ⟨p, hp, rfl⟩ := isKnown_iff_exists.mp h
  exact List.mem_map.mpr ⟨p, hp, rfl⟩

theorem filter_not_mem_cons_lt (t : String) (active : List String) :
    ∀ keys : List String, t ∈ keys → t ∉ active →
      (keys.filter (fun k => decide (k ∉ t :: active))).length <
      (keys.filter (fun k => decide (k ∉ active))).length := by
  intro keys
  induction keys with
  | nil => simp
  | cons y keys ih =>
    intro hy ht
    by_cases hyt : y = t
    · subst hyt
      rw [List.filter_cons, List.filter_cons, if_neg (by simp), if_pos (by simpa using ht)]
      have hmono := length_filter_mono (fun k => decide (k ∉ y :: active))
        (fun k => decide (k ∉ active)) keys
        (by intro x _ hx
            simp only [decide_eq_true_eq, List.mem_cons] at hx ⊢
            exact fun hxa => hx (Or.inr hxa))
      simp only [List.length_cons]
      omega
    · have htk : t ∈ keys := by
        rcases List.mem_cons.mp hy with h | h
        · exact absurd h.symm hyt
        · exact h
      rw [List.filter_cons, List.filter_cons]
      by_cases hya : y ∈ active
      · rw [if_neg (by simp [hya]), if_neg (by simp [hya])]
        exact ih htk ht
      · rw [if_pos (by simp [hyt, hya]), if_pos (by simp [hya])]
        simp only [List.length_cons]
        exact Nat.succ_lt_succ (ih htk ht)

theorem unvisited_cons_lt (mapping : StructTable) (active : List String) (t : String)
    (hk : isKnown mapping t = true) (ht : t ∉ active) :
    unvisitedCount mapping (t :: active) < unvisitedCount mapping active :=
  filter_not_mem_cons_lt t active (mapping.map Prod.fst) (isKnown_mem_keys hk) ht

theorem foldl_mem_of {Q : String → Prop} {g : List String → String → List String} :
    ∀ ms : List String, (∀ a m, m ∈ ms → ∀ x ∈ g a m, x ∈ a ∨ Q x) →
      ∀ (a : List String) (x : String), x ∈ ms.foldl g a → x ∈ a ∨ Q x := by
  intro ms
  induction ms with
  | nil => intro _ a x hx; exact Or.inl (by simpa using hx)
  | cons m ms ih =>
    intro hg a x hx
    have h2 := ih (fun a' m' hm' x' hx' => hg a' m' (List.mem_cons_of_mem _ hm') x' hx')
      (g a m) x (by simpa using hx)
    rcases h2 with h | h
    · exact hg a m (List.mem_cons_self _ _) x h
    · exact Or.inr h

theorem trav_domain (mapping : StructTable) :
    ∀ (f : Nat) (a : List String) (t x : String),
      x ∈ traverse_active_struct_type f a t mapping →
        x ∈ a ∨ isKnown mapping x = true := by
  intro f
  induction f with
  | zero => intro a t x hx; exact Or.inl (by simpa [traverse_active_struct_type] using hx)
  | succ f ih =>
    intro a t x hx
    cases hlk : List.lookup t mapping with
    | none => exact Or.inl (by simpa [traverse_active_struct_type, hlk] using hx)
    | some st =>
      by_cases hta : t ∈ a
      · exact Or.inl (by simpa [traverse_active_struct_type, hlk, hta] using hx)
      · rw [show traverse_active_struct_type (f + 1) a t mapping =
            st.member_types.foldl
              (fun acc m => traverse_active_struct_type f acc m mapping) (t :: a) from
            by simp [traverse_active_struct_type, hlk, hta]] at hx
        rcases foldl_mem_of st.member_types (fun a' m' _ x' hx' => ih a' m' x' hx')
            (t :: a) x hx with h | h
        · rcases List.mem_cons.mp h with h | h
          · subst h; exact Or.inr (by simp [isKnown, hlk])
          · exact Or.inl h
        · exact Or.inr h

theorem ActiveClosure.graft {mapping : StructTable} {R : List String} {s m : String}
    (hs : ActiveClosure mapping R s) (hm : m ∈ memberTypes mapping s) :
    ∀ x, ActiveClosure mapping [m] x → ActiveClosure mapping R x := by
  intro x hx
  induction hx with
  | root t ht hk =>
    have heq : t = m := by simpa using ht
    subst heq
    exact ActiveClosure.member s t hs hm hk
  | member s' m' _ hm' hk ih => exact ActiveClosure.member s' m' ih hm' hk

theorem ActiveClosure.mono {mapping : StructTable} {R R' : List String}
    (h : ∀ t ∈ R, t ∈ R') : ∀ x, ActiveClosure mapping R x → ActiveClosure mapping R' x := by
  intro x hx
  induction hx with
  | root t ht hk => exact ActiveClosure.root t (h t ht) hk
  | member s m _ hm hk ih => exact ActiveClosure.member s m ih hm hk

theorem trav_sound (mapping : StructTable) :
    ∀ (f : Nat) (a : List String) (t x : String),
      x ∈ traverse_active_struct_type f a t mapping →
        x ∈ a ∨ ActiveClosure mapping [t] x := by
  intro f
  induction f with
  | zero => intro a t x hx; exact Or.inl (by simpa [traverse_active_struct_type] using hx)
  | succ f ih =>
    intro a t x hx
    cases hlk : List.lookup t mapping with
    | none => exact Or.inl (by simpa [traverse_active_struct_type, hlk] using hx)
    | some st =>
      by_cases hta : t ∈ a
      · exact Or.inl (by simpa [traverse_active_struct_type, hlk, hta] using hx)
      · have hkt : isKnown mapping t = true := by simp [isKnown, hlk]
        have hACt : ActiveClosure mapping [t] t := ActiveClosure.root t (by simp) hkt
        rw [show traverse_active_struct_type (f + 1) a t mapping =
            st.member_types.foldl
              (fun acc m => traverse_active_struct_type f acc m mapping) (t :: a) from
            by simp [traverse_active_struct_type, hlk, hta]] at hx
        have hstep : ∀ a' m', m' ∈ st.member_types →
            ∀ x' ∈ traverse_active_struct_type f a' m' mapping,
              x' ∈ a' ∨ ActiveClosure mapping [t] x' := by
          intro a' m' hm' x' hx'
          rcases ih a' m' x' hx' with h | h
          · exact Or.inl h
          · have hmem : m' ∈ memberTypes mapping t := by
              simpa [memberTypes, hlk] using hm'
            exact Or.inr (ActiveClosure.graft hACt hmem x' h)
        rcases foldl_mem_of st.member_types hstep (t :: a) x hx with h | h
        · rcases List.mem_cons.mp h with h | h
          · subst h; exact Or.inr hACt
          · exact Or.inl h
        · exact Or.inr h

theorem trav_self_mem (mapping : StructTable) (f : Nat) (a : List String) (t : String)
    (hf : 1 ≤ f) (hk : isKnown mapping t = true) :
    t ∈ traverse_active_struct_type f a t mapping := by
  obtain ⟨f, rfl⟩ : ∃ f', f = f' + 1 := ⟨f - 1, by omega⟩
  cases hlk : List.lookup t mapping with
  | none => simp [isKnown, hlk] at hk
  | some st =>
    by_cases hta : t ∈ a
    · simp [traverse_active_struct_type, hlk, hta]
    · rw [show traverse_active_struct_type (f + 1) a t mapping =
          st.member_types.foldl
            (fun acc m => traverse_active_struct_type f acc m mapping) (t :: a) from
          by simp [traverse_active_struct_type, hlk, hta]]
      exact trav_fold_grow mapping f st.member_types (t :: a) t (List.mem_cons_self _ _)

theorem fold_mems_in (mapping : StructTable) (f : Nat) (hf : 1 ≤ f) :
    ∀ (ms a : List String) (m : String), m ∈ ms → isKnown mapping m = true →
      m ∈ ms.foldl (fun acc m' => traverse_active_struct_type f acc m' mapping) a := by
  intro ms
  induction ms with
  | nil => intro a m hm; simp at hm
  | cons m0 ms ih =>
    intro a m hm hk
    rcases List.mem_cons.mp hm with h | h
    · subst h
      simp only [List.foldl_cons]
      exact trav_fold_grow mapping f ms _ m (trav_self_mem mapping f a m hf hk)
    · simp only [List.foldl_cons]
      exact ih _ m h hk

theorem trav_stable (mapping : StructTable) :
    ∀ n : Nat, ∀ (a : List String) (t : String) (f g : Nat),
      unvisitedCount mapping a ≤ n → n < f → n < g →
      traverse_active_struct_type f a t mapping =
        traverse_active_struct_type g a t mapping := by
  intro n
  induction n using Nat.strong_induction_on with
  | _ n IH =>
    intro a t f g hu hf hg
    obtain ⟨f, rfl⟩ : ∃ f', f = f' + 1 := ⟨f - 1, by omega⟩
    obtain ⟨g, rfl⟩ : ∃ g', g = g' + 1 := ⟨g - 1, by omega⟩
    cases hlk : List.lookup t mapping with
    | none => simp [traverse_active_struct_type, hlk]
    | some st =>
      by_cases hta : t ∈ a
      · simp [traverse_active_struct_type, hlk, hta]
      · have hkt : isKnown mapping t = true := by simp [isKnown, hlk]
        have hn : unvisitedCount mapping (t :: a) < n :=
          lt_of_lt_of_le (unvisited_cons_lt mapping a t hkt hta) hu
        have key : ∀ (ms a' : List String),
            unvisitedCount mapping a' ≤ unvisitedCount mapping (t :: a) →
            ms.foldl (fun acc m => traverse_active_struct_type f acc m mapping) a' =
            ms.foldl (fun acc m => traverse_active_struct_type g acc m mapping) a' := by
          intro ms
          induction ms with
          | nil => intro a' _; simp
          | cons m ms ihms =>
            intro a' ha'
            have huv : unvisitedCount mapping a' < n := lt_of_le_of_lt ha' hn
            have heq : traverse_active_struct_type f a' m mapping =
                traverse_active_struct_type g a' m mapping :=
              IH (unvisitedCount mapping a') huv a' m f g le_rfl (by omega) (by omega)
            simp only [List.foldl_cons]
            rw [heq]
            exact ihms (traverse_active_struct_type g a' m mapping)
              (le_trans
                (unvisited_antimono mapping (fun x hx => trav_grow mapping g a' m x hx))
                ha')
        rw [show traverse_active_struct_type (f + 1) a t mapping =
              st.member_types.foldl
                (fun acc m => traverse_active_struct_type f acc m mapping) (t :: a) from
              by simp [traverse_active_struct_type, hlk, hta],
            show traverse_active_struct_type (g + 1) a t mapping =
              st.member_types.foldl
                (fun acc m => traverse_active_struct_type g acc m mapping) (t :: a) from
              by simp [traverse_active_struct_type, hlk, hta]]
        exact key st.member_types (t :: a) le_rfl

theorem trav_fold_closed (mapping : StructTable) (f : Nat)
    (hstep : ∀ (a : List String) (t : String), unvisitedCount mapping a < f →
      ∀ x ∈ traverse_active_struct_type f a t mapping,
        x ∈ a ∨ ∀ m ∈ memberTypes mapping x, isKnown mapping m = true →
          m ∈ traverse_active_struct_type f a t mapping) :
    ∀ (ms a : List String), unvisitedCount mapping a < f →
      ∀ x ∈ ms.foldl (fun acc m => traverse_active_struct_type f acc m mapping) a,
        x ∈ a ∨ ∀ m ∈ memberTypes mapping x, isKnown mapping m = true →
          m ∈ ms.foldl (fun acc m => traverse_active_struct_type f acc m mapping) a := by
  intro ms
  induction ms with
  | nil => intro a _ x hx; exact Or.inl (by simpa using hx)
  | cons m0 ms ih =>
    intro a ha x hx
    simp only [List.foldl_cons] at hx ⊢
    have hsub : ∀ y ∈ a, y ∈ traverse_active_struct_type f a m0 mapping :=
      fun y hy => trav_grow mapping f a m0 y hy
    have ha1 : unvisitedCount mapping (traverse_active_struct_type f a m0 mapping) < f :=
      lt_of_le_of_lt (unvisited_antimono mapping hsub) ha
    rcases ih (traverse_active_struct_type f a m0 mapping) ha1 x hx with h | h
    · rcases hstep a m0 ha x h with h' | h'
      · exact Or.inl h'
      · refine Or.inr (fun mm hmm hkm => ?_)
        exact trav_fold_grow mapping f ms _ mm (h' mm hmm hkm)
    · exact Or.inr h

theorem trav_closed_except (mapping : StructTable) :
    ∀ (f : Nat) (a : List String) (t : String), unvisitedCount mapping a < f →
      ∀ x ∈ traverse_active_struct_type f a t mapping,
        x ∈ a ∨ ∀ m ∈ memberTypes mapping x, isKnown mapping m = true →
          m ∈ traverse_active_struct_type f a t mapping := by
  intro f
  induction f with
  | zero => intro a t h; omega
  | succ f ih =>
    intro a t hu x hx
    cases hlk : List.lookup t mapping with
    | none => exact Or.inl (by simpa [traverse_active_struct_type, hlk] using hx)
    | some st =>
      by_cases hta : t ∈ a
      · exact Or.inl (by simpa [traverse_active_struct_type, hlk, hta] using hx)
      · have hkt : isKnown mapping t = true := by simp [isKnown, hlk]
        have hres : traverse_active_struct_type (f + 1) a t mapping =
            st.member_types.foldl
              (fun acc m => traverse_active_struct_type f acc m mapping) (t :: a) := by
          simp [traverse_active_struct_type, hlk, hta]
        have hta1 : unvisitedCount mapping (t :: a) < f :=
          lt_of_lt_of_le (unvisited_cons_lt mapping a t hkt hta) (by omega)
        have hf1 : 1 ≤ f := by omega
        rw [hres] at hx ⊢
        rcases trav_fold_closed mapping f ih st.member_types (t :: a) hta1 x hx with h | h
        · rcases List.mem_cons.mp h with h | h
          · subst h
            refine Or.inr (fun mm hmm hkm => ?_)
            have hmm' : mm ∈ st.member_types := by simpa [memberTypes, hlk] using hmm
            exact fold_mems_in mapping f hf1 st.member_types (x :: a) mm hmm' hkm
          · exact Or.inl h
        · exact Or.inr h

theorem traverse_closed (mapping : StructTable) (R : List String) :
    ∀ x ∈ traverse_active_struct_types R mapping,
      ∀ m ∈ memberTypes mapping x, isKnown mapping m = true →
        m ∈ traverse_active_struct_types R mapping := by
  intro x hx
  unfold traverse_active_struct_types at hx ⊢
  have hu : unvisitedCount mapping [] < mapping.length + 1 :=
    lt_of_le_of_lt (unvisited_le_length mapping []) (by omega)
  rcases trav_fold_closed mapping (mapping.length + 1)
      (trav_closed_except mapping (mapping.length + 1)) R [] hu x hx with h | h
  · simp at h
  · exact h

theorem traverse_roots_mem (mapping : StructTable) (R : List String) :
    ∀ t ∈ R, isKnown mapping t = true → t ∈ traverse_active_struct_types R mapping := by
  intro t ht hk
  unfold traverse_active_struct_types
  exact fold_mems_in mapping (mapping.length + 1) (by omega) R [] t ht hk

theorem mem_traverse_iff (mapping : StructTable) (R : List String) (x : String) :
    x ∈ traverse_active_struct_types R mapping ↔ ActiveClosure mapping R x := by
  constructor
  · intro hx
    unfold traverse_active_struct_types at hx
    have hstep : ∀ (a : List String) (t : String), t ∈ R →
        ∀ x' ∈ traverse_active_struct_type (mapping.length + 1) a t mapping,
          x' ∈ a ∨ ActiveClosure mapping R x' := by
      intro a t htR x' hx'
      rcases trav_sound mapping (mapping.length + 1) a t x' hx' with h | h
      · exact Or.inl h
      · exact Or.inr (ActiveClosure.mono (by simpa using htR) x' h)
    rcases foldl_mem_of R hstep [] x hx with h | h
    · simp at h
    · exact h
  · intro hx
    induction hx with
    | root t ht hk => exact traverse_roots_mem mapping R t ht hk
    | member s m _ hm hk ihs => exact traverse_closed mapping R s ihs m hm hk

theorem ActiveClosure.known_of {mapping : StructTable} {R : List String} {x : String}
    (h : ActiveClosure mapping R x) : isKnown mapping x = true := by
  cases h with
  | root t ht hk => exact hk
  | member s m hs hm hk => exact hk

theorem ActiveClosure.le_closed {mapping : StructTable} {R : List String} {T : Set String}
    (hroot : ∀ t ∈ R, isKnown mapping t = true → t ∈ T)
    (hclosed : ClosedUnderMembers mapping T) :
    ∀ x, ActiveClosure mapping R x → x ∈ T := by
  intro x hx
  induction hx with
  | root t ht hk => exact hroot t ht hk
  | member s m _ hm hk ih => exact hclosed s ih m hm hk

/-- C1 (counterexample): on the empty structure table with root set
`{"a"}`, the smallest set containing the roots and closed under the member
rule is `{"a"}` itself, yet the engine's closure does not contain `"a"`
(unknown roots are silently dropped), so the computed closure is not the
smallest set containing the root set. -/
theorem c1_counterexample :
    IsSmallestClosedContaining ([] : StructTable) ["a"] {x | x = "a"} ∧
    "a" ∉ traverse_active_struct_types ["a"] ([] : StructTable) ∧
    ({x | x = "a"} : Set String) ≠
      {x | x ∈ traverse_active_struct_types ["a"] ([] : StructTable)} := by
  refine ⟨⟨?_, ?_, ?_⟩, by decide, ?_⟩
  · intro t ht
    simpa using ht
  · intro s _ m hm _
    simp [memberTypes, List.lookup] at hm
  · intro T hT _ x hx
    simp only [Set.mem_setOf_eq] at hx
    subst hx
    exact hT "a" (by simp)
  · intro heq
    have h1 : ("a" : String) ∈ ({x | x = "a"} : Set String) := rfl
    rw [heq] at h1
    simp only [Set.mem_setOf_eq] at h1
    exact (by decide : "a" ∉ traverse_active_struct_types ["a"] ([] : StructTable)) h1

/-- C1 (amended): for every root set `R` and structure table, the computed
active-type closure is the smallest set that contains every root of `R`
that is itself a known structure and is closed under the rule "a member
type of an element that is a known structure is an element".  (The claim
as stated fails only in that roots that are not known structures are
silently excluded, see `c1_counterexample`.) -/
theorem c1_active_closure_least (mapping : StructTable) (R : List String) :
    (∀ t ∈ R, isKnown mapping t = true → t ∈ traverse_active_struct_types R mapping) ∧
    ClosedUnderMembers mapping {x | x ∈ traverse_active_struct_types R mapping} ∧
    ∀ T : Set String, (∀ t ∈ R, isKnown mapping t = true → t ∈ T) →
      ClosedUnderMembers mapping T →
      ∀ x ∈ traverse_active_struct_types R mapping, x ∈ T := by
  refine ⟨traverse_roots_mem mapping R, ?_, ?_⟩
  · intro s hs m hm hk
    exact traverse_closed mapping R s hs m hm hk
  · intro T hroot hclosed x hx
    exact ActiveClosure.le_closed hroot hclosed x ((mem_traverse_iff mapping R x).mp hx)

/-- C1 (witness): the amended theorem evaluated on a concrete table. -/
theorem c1_witness : "A" ∈ traverse_active_struct_types ["A"] demoTable :=
  (c1_active_closure_least demoTable ["A"]).1 "A" (by decide) (by decide)

/-- C7: the active-type closure is monotone in the root set. -/
theorem c7_monotone (mapping : StructTable) (R R' : List String)
    (h : ∀ t ∈ R, t ∈ R') :
    ∀ x ∈ traverse_active_struct_types R mapping,
      x ∈ traverse_active_struct_types R' mapping := by
  intro x hx
  exact (mem_traverse_iff mapping R' x).mpr
    (ActiveClosure.mono h x ((mem_traverse_iff mapping R x).mp hx))

/-- C7 (witness): monotonicity evaluated on a concrete table and a
concrete pair of nested root sets. -/
theorem c7_witness : "A" ∈ traverse_active_struct_types ["A", "B"] demoTable :=
  c7_monotone demoTable ["A"] ["A", "B"] (by decide) "A" (by decide)

/-- C8: the traversal terminates on every finite structure table, cyclic
member relations included: any fuel beyond the number of table keys
computes the same closure as the canonical fuel, because each recursive
visit strictly shrinks the set of unvisited keys, so the recursion reaches
its base cases before the budget runs out. -/
theorem c8_terminates (mapping : StructTable) (R : List String) (f : Nat)
    (hf : mapping.length < f) :
    R.foldl (fun acc t => traverse_active_struct_type f acc t mapping) [] =
      traverse_active_struct_types R mapping := by
  unfold traverse_active_struct_types
  have key : ∀ (ts a : List String),
      ts.foldl (fun acc t => traverse_active_struct_type f acc t mapping) a =
      ts.foldl (fun acc t => traverse_active_struct_type (mapping.length + 1) acc t mapping) a := by
    intro ts
    induction ts with
    | nil => intro a; simp
    | cons t ts ih =>
      intro a
      simp only [List.foldl_cons]
      rw [trav_stable mapping mapping.length a t f (mapping.length + 1)
        (unvisited_le_length mapping a) hf (by omega)]
      exact ih _
  exact key R []

/-- C8 (witness): termination evaluated on a concrete cyclic table. -/
theorem c8_witness :
    (["A"] : List String).foldl
        (fun acc t => traverse_active_struct_type 7 acc t cycTable) [] =
      traverse_active_struct_types ["A"] cycTable :=
  c8_terminates cycTable ["A"] 7 (by decide)

theorem mem_find_extending (active_types : List String) (mappings : StructTable) (x : String) :
    x ∈ find_extending_structs active_types mappings ↔
      ∃ p ∈ mappings, struct_extends_any active_types p.1 mappings = true ∧
        x ∈ traverse_active_struct_types [p.1] mappings := by
  unfold find_extending_structs
  have key : ∀ (l : List (String × StructType)) (acc : List String),
      (x ∈ l.foldl (fun acc p => if struct_extends_any active_types p.1 mappings then
          acc ++ traverse_active_struct_types [p.1] mappings else acc) acc ↔
        x ∈ acc ∨ ∃ p ∈ l, struct_extends_any active_types p.1 mappings = true ∧
          x ∈ traverse_active_struct_types [p.1] mappings) := by
    intro l
    induction l with
    | nil => intro acc; simp
    | cons p l ih =>
      intro acc
      simp only [List.foldl_cons]
      by_cases hp : struct_extends_any active_types p.1 mappings = true
      · rw [if_pos hp, ih]
        constructor
        · rintro (h | h)
          · rcases List.mem_append.mp h with h | h
            · exact Or.inl h
            · exact Or.inr ⟨p, List.mem_cons_self _ _, hp, h⟩
          · rcases h with ⟨q, hq, hq2, hq3⟩
            exact Or.inr ⟨q, List.mem_cons_of_mem _ hq, hq2, hq3⟩
        · rintro (h | h)
          · exact Or.inl (List.mem_append.mpr (Or.inl h))
          · rcases h with ⟨q, hq, hq2, hq3⟩
            rcases List.mem_cons.mp hq with rfl | hq
            · exact Or.inl (List.mem_append.mpr (Or.inr hq3))
            · exact Or.inr ⟨q, hq, hq2, hq3⟩
      · rw [if_neg hp, ih]
        constructor
        · rintro (h | h)
          · exact Or.inl h
          · rcases h with ⟨q, hq, hq2, hq3⟩
            exact Or.inr ⟨q, List.mem_cons_of_mem _ hq, hq2, hq3⟩
        · rintro (h | h)
          · exact Or.inl h
          · rcases h with ⟨q, hq, hq2, hq3⟩
            rcases List.mem_cons.mp hq with rfl | hq
            · exact absurd hq2 hp
            · exact Or.inr ⟨q, hq, hq2, hq3⟩
  rw [key]
  simp

/-- C9: every element of the computed active set and of the computed
extending set is a key of the structure table (so the downstream member
and EXTENDS lookups are defined), and a root that is not a known structure
is silently excluded from the closure. -/
theorem c9_domain (mapping : StructTable) (R active : List String) :
    (∀ x ∈ traverse_active_struct_types R mapping, isKnown mapping x = true) ∧
    (∀ x ∈ find_extending_structs active mapping, isKnown mapping x = true) ∧
    (∀ t ∈ R, isKnown mapping t = false → t ∉ traverse_active_struct_types R mapping) := by
  have hknown : ∀ (S : List String) (x : String),
      x ∈ traverse_active_struct_types S mapping → isKnown mapping x = true :=
    fun S x hx => ((mem_traverse_iff mapping S x).mp hx).known_of
  refine ⟨fun x hx => hknown R x hx, ?_, ?_⟩
  · intro x hx
    rcases (mem_find_extending active mapping x).mp hx with ⟨p, _, _, hx'⟩
    exact hknown [p.1] x hx'
  · intro t _ hk hmem
    have := hknown R t hmem
    rw [hk] at this
    exact Bool.false_ne_true this

/-- C9 (witness): the domain invariant evaluated on a concrete table. -/
theorem c9_witness : isKnown demoTable "B" = true :=
  (c9_domain demoTable ["A"] []).1 "B" (by decide)

theorem extendsOf_eq {mappings : StructTable} {t : String} {st : StructType}
    (h : List.lookup t mappings = some st) : extendsOf mappings t = st.extends_ := by
  simp [extendsOf, h]

theorem extends_any_fuel_succ (mappings : StructTable) (active_types : List String)
    (f : Nat) (t : String) (st : StructType) (hlk : List.lookup t mappings = some st) :
    struct_extends_any_fuel (f + 1) active_types t mappings =
      st.extends_.any (fun e =>
        decide (e ∈ active_types) || struct_extends_any_fuel f active_types e mappings) := by
  simp [struct_extends_any_fuel, hlk]

theorem Qualifies.known_head {mappings : StructTable} {active_types : List String} {t : String}
    (h : Qualifies mappings active_types t) : isKnown mappings t = true := by
  cases h with
  | direct t e hk he ha => exact hk
  | chain t e hk he hq => exact hk

theorem extends_any_sound (mappings : StructTable) (active_types : List String) :
    ∀ (f : Nat) (t : String), struct_extends_any_fuel f active_types t mappings = true →
      Qualifies mappings active_types t := by
  intro f
  induction f with
  | zero => intro t h; simp [struct_extends_any_fuel] at h
  | succ f ih =>
    intro t h
    cases hlk : List.lookup t mappings with
    | none => simp [struct_extends_any_fuel, hlk] at h
    | some st =>
      rw [extends_any_fuel_succ mappings active_types f t st hlk] at h
      rcases List.any_eq_true.mp h with ⟨e, he, hcond⟩
      have hkt : isKnown mappings t = true := by simp [isKnown, hlk]
      have he' : e ∈ extendsOf mappings t := by rw [extendsOf_eq hlk]; exact he
      have hcond' : e ∈ active_types ∨
          struct_extends_any_fuel f active_types e mappings = true := by
        simpa using hcond
      rcases hcond' with h1 | h1
      · exact Qualifies.direct t e hkt he' h1
      · exact Qualifies.chain t e hkt he' (ih e h1)

theorem rankBelow_lt (mappings : StructTable) (rank : String → Nat) {t e : String}
    (hke : isKnown mappings e = true) (hlt : rank e < rank t) :
    rankBelow mappings rank e < rankBelow mappings rank t := by
  unfold rankBelow
  have hsub : (((mappings.map Prod.fst).map rank).toFinset.filter (fun r => r < rank e)) ⊆
      (((mappings.map Prod.fst).map rank).toFinset.filter (fun r => r < rank t)) := by
    intro r hr
    simp only [Finset.mem_filter] at hr ⊢
    exact ⟨hr.1, lt_trans hr.2 hlt⟩
  apply Finset.card_lt_card
  rw [Finset.ssubset_iff_of_subset hsub]
  refine ⟨rank e, ?_, ?_⟩
  · simp only [Finset.mem_filter]
    refine ⟨?_, hlt⟩
    rw [List.mem_toFinset]
    exact List.mem_map.mpr ⟨e, isKnown_mem_keys hke, rfl⟩
  · simp

theorem rankBelow_le_length (mappings : StructTable) (rank : String → Nat) (t : String) :
    rankBelow mappings rank t ≤ mappings.length := by
  unfold rankBelow
  calc (((mappings.map Prod.fst).map rank).toFinset.filter (fun r => r < rank t)).card
      ≤ ((mappings.map Prod.fst).map rank).toFinset.card := Finset.card_filter_le _ _
    _ ≤ ((mappings.map Prod.fst).map rank).length := List.toFinset_card_le _
    _ = mappings.length := by simp

theorem extends_any_complete (mappings : StructTable) (active_types : List String)
    (rank : String → Nat)
    (hrank : ∀ t st, List.lookup t mappings = some st → ∀ e ∈ st.extends_, rank e < rank t) :
    ∀ t, Qualifies mappings active_types t →
      ∀ f, rankBelow mappings rank t < f →
        struct_extends_any_fuel f active_types t mappings = true := by
  intro t hq
  induction hq with
  | direct t e hk he ha =>
    intro f hf
    obtain ⟨f, rfl⟩ : ∃ f', f = f' + 1 := ⟨f - 1, by omega⟩
    obtain ⟨st, hlk⟩ : ∃ st, List.lookup t mappings = some st := by
      cases hlk : List.lookup t mappings with
      | none => simp [isKnown, hlk] at hk
      | some st => exact ⟨st, rfl⟩
    rw [extends_any_fuel_succ mappings active_types f t st hlk]
    refine List.any_eq_true.mpr ⟨e, ?_, ?_⟩
    · rw [extendsOf_eq hlk] at he; exact he
    · simp [ha]
  | chain t e hk he hq ih =>
    intro f hf
    obtain ⟨f, rfl⟩ : ∃ f', f = f' + 1 := ⟨f - 1, by omega⟩
    obtain ⟨st, hlk⟩ : ∃ st, List.lookup t mappings = some st := by
      cases hlk : List.lookup t mappings with
      | none => simp [isKnown, hlk] at hk
      | some st => exact ⟨st, rfl⟩
    have he2 : e ∈ st.extends_ := by rw [extendsOf_eq hlk] at he; exact he
    have hlt : rank e < rank t := hrank t st hlk e he2
    have hrb : rankBelow mappings rank e < rankBelow mappings rank t :=
      rankBelow_lt mappings rank hq.known_head hlt
    have hrec := ih f (by omega)
    rw [extends_any_fuel_succ mappings active_types f t st hlk]
    exact List.any_eq_true.mpr ⟨e, he2, by simp [hrec]⟩

/-- C2: under an acyclic EXTENDS relation, a structure passes
`struct_extends_any` exactly when its EXTENDS set meets the active set
directly or through a chain of other extending structures; a structure
with an empty EXTENDS set never passes; and the extending set is exactly
the union of the member-closures of the qualifying structures. -/
theorem c2_extending_structs (mappings : StructTable) (active_types : List String)
    (hac : ExtendsAcyclic mappings) :
    (∀ t, struct_extends_any active_types t mappings = true ↔
        Qualifies mappings active_types t) ∧
    (∀ t st, List.lookup t mappings = some st → st.extends_ = [] →
        struct_extends_any active_types t mappings = false) ∧
    (∀ x, x ∈ find_extending_structs active_types mappings ↔
        ∃ m, Qualifies mappings active_types m ∧ ActiveClosure mappings [m] x) := by
  obtain ⟨rank, hrank⟩ := hac
  have hiff : ∀ t, struct_extends_any active_types t mappings = true ↔
      Qualifies mappings active_types t := by
    intro t
    constructor
    · exact extends_any_sound mappings active_types (mappings.length + 1) t
    · intro hq
      exact extends_any_complete mappings active_types rank hrank t hq
        (mappings.length + 1)
        (by have := rankBelow_le_length mappings rank t; omega)
  refine ⟨hiff, ?_, ?_⟩
  · intro t st hlk hempty
    unfold struct_extends_any
    rw [extends_any_fuel_succ mappings active_types mappings.length t st hlk, hempty]
    simp
  · intro x
    rw [mem_find_extending]
    constructor
    · rintro ⟨p, _, hq, hx⟩
      exact ⟨p.1, (hiff p.1).mp hq, (mem_traverse_iff mappings [p.1] x).mp hx⟩
    · rintro ⟨m, hq, hx⟩
      obtain ⟨p, hp, rfl⟩ : ∃ p ∈ mappings, p.1 = m := isKnown_iff_exists.mp hq.known_head
      exact ⟨p, hp, (hiff p.1).mpr hq, (mem_traverse_iff mappings [p.1] x).mpr hx⟩

theorem lookup_cons_inv {α β : Type} [BEq α] [LawfulBEq α] {a k : α} {v : β}
    {es : List (α × β)} {r : β}
    (h : List.lookup a ((k, v) :: es) = some r) :
    (a = k ∧ r = v) ∨ (a ≠ k ∧ List.lookup a es = some r) := by
  by_cases hak : a = k
  · subst hak
    refine Or.inl ⟨rfl, ?_⟩
    have heq : List.lookup a ((a, v) :: es) = some v := by simp [List.lookup]
    rw [heq] at h
    exact (Option.some_inj.mp h).symm
  · refine Or.inr ⟨hak, ?_⟩
    have hbeq : (a == k) = false := beq_eq_false_iff_ne.mpr hak
    simpa [List.lookup, hbeq] using h

theorem tbl2_acyclic : ExtendsAcyclic tbl2 := by
  refine ⟨fun s => if s = "X" then 1 else 0, ?_⟩
  intro t st hlk e he
  rcases lookup_cons_inv hlk with ⟨rfl, rfl⟩ | ⟨_, h2⟩
  · have he' : e = "Y" := by simpa using he
    subst he'
    decide
  · rcases lookup_cons_inv h2 with ⟨rfl, rfl⟩ | ⟨_, h3⟩
    · simp at he
    · simp [List.lookup] at h3

/-- C2 (witness): the classifier evaluated on a concrete acyclic table,
with the concrete rank discharging the acyclicity hypothesis. -/
theorem c2_witness : Qualifies tbl2 ["Y"] "X" :=
  ((c2_extending_structs tbl2 ["Y"] tbl2_acyclic).1 "X").mp (by decide)

theorem process_type_ref_eq (aliases : List (String × String)) (struct_types : StructTable)
    (active_types extending_types active_enums cherry_picked : List String)
    (a : Additions) (raw : String) :
    process_type_ref aliases struct_types active_types extending_types active_enums
        cherry_picked a raw =
      { new_structs := a.new_structs ++
          new_struct_contrib aliases active_types extending_types cherry_picked raw,
        new_enums := a.new_enums ++
          new_enum_contrib aliases active_types extending_types active_enums cherry_picked raw,
        extended_enums := a.extended_enums,
        feature_structs := a.feature_structs ++ feature_contrib aliases struct_types raw,
        property_structs := a.property_structs ++ property_contrib aliases struct_types raw } := by
  unfold process_type_ref new_struct_contrib new_enum_contrib feature_contrib property_contrib
  by_cases hA : resolveAlias aliases raw ∈ active_types <;>
  by_cases hB : resolveAlias aliases raw ∈ extending_types <;>
  by_cases h2 : resolveAlias aliases raw ∈ cherry_picked <;>
  by_cases h3 : resolveAlias aliases raw ∈ active_enums <;>
  by_cases hK : isKnown struct_types (resolveAlias aliases raw) = true <;>
  by_cases hF : "VkPhysicalDeviceFeatures2" ∈ extendsOf struct_types (resolveAlias aliases raw) <;>
  by_cases hP : "VkPhysicalDeviceProperties2" ∈ extendsOf struct_types (resolveAlias aliases raw) <;>
  simp [hA, hB, h2, h3, hK, hF, hP]

theorem process_enum_ref_eq (aliases : List (String × String))
    (active_enums cherry_picked : List String) (a : Additions) (er : EnumRef) :
    process_enum_ref aliases active_enums cherry_picked a er =
      { a with extended_enums := a.extended_enums ++
          extended_enum_contrib aliases active_enums cherry_picked er } := by
  unfold process_enum_ref extended_enum_contrib
  cases hE : er.extends_ with
  | none => by_cases h1 : er.name ∉ cherry_picked <;> simp [h1, hE]
  | some tgt =>
    by_cases h1 : er.name ∉ cherry_picked
    · by_cases h2 : tgt ∈ active_enums <;> simp [h1, h2, hE]
    · simp [h1]

theorem fold_type_refs_eq (aliases : List (String × String)) (struct_types : StructTable)
    (active_types extending_types active_enums cherry_picked : List String) :
    ∀ (ts : List String) (a : Additions),
      ts.foldl (process_type_ref aliases struct_types active_types extending_types
          active_enums cherry_picked) a =
        { new_structs := a.new_structs ++
            ts.flatMap (new_struct_contrib aliases active_types extending_types cherry_picked),
          new_enums := a.new_enums ++
            ts.flatMap (new_enum_contrib aliases active_types extending_types active_enums
              cherry_picked),
          extended_enums := a.extended_enums,
          feature_structs := a.feature_structs ++ ts.flatMap (feature_contrib aliases struct_types),
          property_structs := a.property_structs ++
            ts.flatMap (property_contrib aliases struct_types) } := by
  intro ts
  induction ts with
  | nil => intro a; simp
  | cons raw ts ih =>
    intro a
    simp only [List.foldl_cons]
    rw [process_type_ref_eq, ih]
    simp [List.flatMap_cons, List.append_assoc]

theorem fold_enum_refs_eq (aliases : List (String × String))
    (active_enums cherry_picked : List String) :
    ∀ (es : List EnumRef) (a : Additions),
      es.foldl (process_enum_ref aliases active_enums cherry_picked) a =
        { a with extended_enums := a.extended_enums ++
            es.flatMap (extended_enum_contrib aliases active_enums cherry_picked) } := by
  intro es
  induction es with
  | nil => intro a; simp
  | cons er es ih =>
    intro a
    simp only [List.foldl_cons]
    rw [process_enum_ref_eq, ih]
    simp [List.flatMap_cons, List.append_assoc]

theorem collect_additions_eq (aliases : List (String × String)) (struct_types : StructTable)
    (active_types extending_types active_enums cherry_picked : List String)
    (blocks : List RequireBlock) :
    collect_additions aliases struct_types active_types extending_types active_enums
        cherry_picked blocks =
      { new_structs := blocks.flatMap (fun blk =>
          blk.types.flatMap (new_struct_contrib aliases active_types extending_types cherry_picked)),
        new_enums := blocks.flatMap (fun blk =>
          blk.types.flatMap (new_enum_contrib aliases active_types extending_types active_enums
            cherry_picked)),
        extended_enums := blocks.flatMap (fun blk =>
          blk.enums.flatMap (extended_enum_contrib aliases active_enums cherry_picked)),
        feature_structs := blocks.flatMap (fun blk =>
          blk.types.flatMap (feature_contrib aliases struct_types)),
        property_structs := blocks.flatMap (fun blk =>
          blk.types.flatMap (property_contrib aliases struct_types)) } := by
  unfold collect_additions
  have key : ∀ (bs : List RequireBlock) (a : Additions),
      bs.foldl (fun a blk =>
          blk.enums.foldl (process_enum_ref aliases active_enums cherry_picked)
            (blk.types.foldl
              (process_type_ref aliases struct_types active_types extending_types
                active_enums cherry_picked) a)) a =
        { new_structs := a.new_structs ++ bs.flatMap (fun blk =>
            blk.types.flatMap (new_struct_contrib aliases active_types extending_types
              cherry_picked)),
          new_enums := a.new_enums ++ bs.flatMap (fun blk =>
            blk.types.flatMap (new_enum_contrib aliases active_types extending_types
              active_enums cherry_picked)),
          extended_enums := a.extended_enums ++ bs.flatMap (fun blk =>
            blk.enums.flatMap (extended_enum_contrib aliases active_enums cherry_picked)),
          feature_structs := a.feature_structs ++ bs.flatMap (fun blk =>
            blk.types.flatMap (feature_contrib aliases struct_types)),
          property_structs := a.property_structs ++ bs.flatMap (fun blk =>
            blk.types.flatMap (property_contrib aliases struct_types)) } := by
    intro bs
    induction bs with
    | nil => intro a; simp
    | cons blk bs ih =>
      intro a
      simp only [List.foldl_cons]
      rw [fold_type_refs_eq, fold_enum_refs_eq, ih]
      simp [List.flatMap_cons, List.append_assoc]
  rw [key]
  simp

theorem flatMap_eq_nil_of {α β : Type} (l : List α) (f : α → List β)
    (h : ∀ x ∈ l, f x = []) : l.flatMap f = [] := by
  induction l with
  | nil => rfl
  | cons x l ih =>
    simp [List.flatMap_cons, h x (List.mem_cons_self _ _),
      ih (fun y hy => h y (List.mem_cons_of_mem _ hy))]

/-- C3 (counterexample): with the alias `E_raw -> E_canon` and `E_canon`
cherry-picked, the enum-value reference with raw name `E_raw` passes the
cherry-pick test — which the source performs on the raw name, before
resolving the alias — and the pair is recorded with the alias-resolved
name `E_canon`, a member of cherryPicked.  So a name whose alias-resolved
form is in cherryPicked appears in the enum-value-extension output, and
the membership test was not performed on the alias-resolved name. -/
theorem c3_counterexample :
    resolveAlias aliases3 "E_raw" ∈ cherry3 ∧
    ("Target", "E_canon") ∈
      (collect_additions aliases3 [] [] [] aenums3 cherry3 blocks3).extended_enums ∧
    "E_canon" ∈ cherry3 := by
  decide

/-- C3 (amended): names recorded as new structs or new enums are never in
cherryPicked (their membership test is on the alias-resolved name); every
recorded enum-value pair comes from a reference whose raw name is not in
cherryPicked, whose declared target is in ActiveEnums, and whose recorded
value is the alias-resolved form of the raw name — the cherry-pick test
for enum-value references is performed on the raw name, so a reference
whose alias-resolved form alone is cherry-picked can still appear. -/
theorem c3_cherry_pick (aliases : List (String × String)) (struct_types : StructTable)
    (active_types extending_types active_enums cherry_picked : List String)
    (blocks : List RequireBlock) :
    (∀ x ∈ (collect_additions aliases struct_types active_types extending_types
        active_enums cherry_picked blocks).new_structs, x ∉ cherry_picked) ∧
    (∀ x ∈ (collect_additions aliases struct_types active_types extending_types
        active_enums cherry_picked blocks).new_enums, x ∉ cherry_picked) ∧
    (∀ p ∈ (collect_additions aliases struct_types active_types extending_types
        active_enums cherry_picked blocks).extended_enums,
      ∃ blk ∈ blocks, ∃ er ∈ blk.enums, er.name ∉ cherry_picked ∧
        er.extends_ = some p.1 ∧ p.1 ∈ active_enums ∧
        p.2 = resolveAlias aliases er.name) := by
  rw [collect_additions_eq]
  refine ⟨?_, ?_, ?_⟩
  · intro x hx
    simp only [List.mem_flatMap] at hx
    obtain ⟨blk, _, raw, _, hx⟩ := hx
    unfold new_struct_contrib at hx
    by_cases hc : (resolveAlias aliases raw ∈ active_types ∨
        resolveAlias aliases raw ∈ extending_types) ∧
        resolveAlias aliases raw ∉ cherry_picked
    · rw [if_pos hc] at hx
      have hx' : x = resolveAlias aliases raw := by simpa using hx
      subst hx'
      exact hc.2
    · rw [if_neg hc] at hx
      simp at hx
  · intro x hx
    simp only [List.mem_flatMap] at hx
    obtain ⟨blk, _, raw, _, hx⟩ := hx
    unfold new_enum_contrib at hx
    by_cases hc : (resolveAlias aliases raw ∉ active_types ∧
        resolveAlias aliases raw ∉ extending_types) ∧
        resolveAlias aliases raw ∈ active_enums ∧
        resolveAlias aliases raw ∉ cherry_picked
    · rw [if_pos hc] at hx
      have hx' : x = resolveAlias aliases raw := by simpa using hx
      subst hx'
      exact hc.2.2
    · rw [if_neg hc] at hx
      simp at hx
  · intro p hp
    simp only [List.mem_flatMap] at hp
    obtain ⟨blk, hblk, er, her, hp⟩ := hp
    unfold extended_enum_contrib at hp
    by_cases h1 : er.name ∉ cherry_picked
    · rw [if_pos h1] at hp
      cases hE : er.extends_ with
      | none => rw [hE] at hp; dsimp only at hp; simp at hp
      | some tgt =>
        rw [hE] at hp
        dsimp only at hp
        by_cases h2 : tgt ∈ active_enums
        · rw [if_pos h2] at hp
          have hp' : p = (tgt, resolveAlias aliases er.name) := by simpa using hp
          subst hp'
          exact ⟨blk, hblk, er, her, h1, hE, h2, rfl⟩
        · rw [if_neg h2] at hp; simp at hp
    · rw [if_neg h1] at hp; simp at hp

/-- C3 (witness): the amended theorem evaluated at a concrete input where
the structure `S` is recorded as a new struct. -/
theorem c3_witness : "S" ∉ (["Z"] : List String) :=
  (c3_cherry_pick aliases3 [] ["S"] [] [] ["Z"] blocks3b).1 "S" (by decide)

/-- C6: for an extension scanned by the Additions loop, the emitted
section is nonempty exactly when the extension contributed at least one
new struct, new enum or enum-value pair; and when every type reference of
its requirement blocks resolves to a name outside ActiveTypes,
ExtendingTypes and ActiveEnums, and every enum-value reference targets an
enum outside ActiveEnums, the section is empty. -/
theorem additions_report_eq (aliases : List (String × String)) (struct_types : StructTable)
    (active_types extending_types active_enums cherry_picked : List String)
    (completed_extensions ignored_extensions : List String) (exts : List ExtensionDecl) :
    additions_report aliases struct_types active_types extending_types active_enums
        cherry_picked completed_extensions ignored_extensions exts =
      exts.flatMap (fun ext =>
        if "vulkan" ∈ ext.supported ∧
            ¬(ext.name ∈ completed_extensions ∨ ext.name ∈ ignored_extensions) then
          extension_section aliases struct_types active_types extending_types active_enums
            cherry_picked ext.name ext.requires_
        else []) := by
  unfold additions_report
  have key : ∀ (l : List ExtensionDecl) (acc : List String),
      l.foldl (fun out ext =>
        if "vulkan" ∈ ext.supported then
          if ext.name ∈ completed_extensions ∨ ext.name ∈ ignored_extensions then out
          else out ++ extension_section aliases struct_types active_types extending_types
            active_enums cherry_picked ext.name ext.requires_
        else out) acc =
      acc ++ l.flatMap (fun ext =>
        if "vulkan" ∈ ext.supported ∧
            ¬(ext.name ∈ completed_extensions ∨ ext.name ∈ ignored_extensions) then
          extension_section aliases struct_types active_types extending_types active_enums
            cherry_picked ext.name ext.requires_
        else []) := by
    intro l
    induction l with
    | nil => intro acc; simp
    | cons ext l ih =>
      intro acc
      simp only [List.foldl_cons, List.flatMap_cons]
      by_cases hv : "vulkan" ∈ ext.supported
      · by_cases hs : ext.name ∈ completed_extensions ∨ ext.name ∈ ignored_extensions
        · rw [if_pos hv, if_pos hs, ih, if_neg (by tauto)]
          simp
        · rw [if_pos hv, if_neg hs, ih, if_pos ⟨hv, hs⟩]
          simp [List.append_assoc]
      · rw [if_neg hv, ih, if_neg (by tauto)]
        simp
  rw [key]
  simp

theorem c6_section_iff (aliases : List (String × String)) (struct_types : StructTable)
    (active_types extending_types active_enums cherry_picked : List String)
    (ext_name : String) (blocks : List RequireBlock)
    (completed_extensions ignored_extensions : List String) (exts : List ExtensionDecl) :
    (additions_report aliases struct_types active_types extending_types active_enums
        cherry_picked completed_extensions ignored_extensions exts =
      exts.flatMap (fun ext =>
        if "vulkan" ∈ ext.supported ∧
            ¬(ext.name ∈ completed_extensions ∨ ext.name ∈ ignored_extensions) then
          extension_section aliases struct_types active_types extending_types active_enums
            cherry_picked ext.name ext.requires_
        else [])) ∧
    (extension_section aliases struct_types active_types extending_types active_enums
        cherry_picked ext_name blocks ≠ [] ↔
      ((collect_additions aliases struct_types active_types extending_types active_enums
          cherry_picked blocks).new_structs ≠ [] ∨
       (collect_additions aliases struct_types active_types extending_types active_enums
          cherry_picked blocks).new_enums ≠ [] ∨
       (collect_additions aliases struct_types active_types extending_types active_enums
          cherry_picked blocks).extended_enums ≠ [])) ∧
    ((∀ blk ∈ blocks,
        (∀ tn ∈ blk.types, resolveAlias aliases tn ∉ active_types ∧
          resolveAlias aliases tn ∉ extending_types ∧
          resolveAlias aliases tn ∉ active_enums) ∧
        (∀ er ∈ blk.enums, ∀ tgt, er.extends_ = some tgt → tgt ∉ active_enums)) →
      extension_section aliases struct_types active_types extending_types active_enums
        cherry_picked ext_name blocks = []) := by
  refine ⟨additions_report_eq aliases struct_types active_types extending_types active_enums
    cherry_picked completed_extensions ignored_extensions exts, ?_⟩
  have hcount : ∀ a : Additions,
      (a.new_structs.length + a.new_enums.length + a.extended_enums.length > 0) ↔
      (a.new_structs ≠ [] ∨ a.new_enums ≠ [] ∨ a.extended_enums ≠ []) := by
    intro a
    constructor
    · intro h
      by_contra hno
      push_neg at hno
      obtain ⟨h1, h2, h3⟩ := hno
      simp [h1, h2, h3] at h
    · intro h
      rcases h with h | h | h
      · have hlen := List.length_pos.mpr h
        omega
      · have hlen := List.length_pos.mpr h
        omega
      · have hlen := List.length_pos.mpr h
        omega
  constructor
  · unfold extension_section
    dsimp only
    by_cases hc : (collect_additions aliases struct_types active_types extending_types
        active_enums cherry_picked blocks).new_structs.length +
        (collect_additions aliases struct_types active_types extending_types active_enums
          cherry_picked blocks).new_enums.length +
        (collect_additions aliases struct_types active_types extending_types active_enums
          cherry_picked blocks).extended_enums.length > 0
    · rw [if_pos hc]
      simp only [ne_eq, List.cons_append, List.append_assoc]
      constructor
      · intro _
        exact (hcount _).mp hc
      · intro _
        simp
    · rw [if_neg hc]
      constructor
      · intro h
        exact absurd rfl h
      · intro h
        exact absurd ((hcount _).mpr h) hc
  · intro h
    have hempty : ∀ blk ∈ blocks,
        (blk.types.flatMap
          (new_struct_contrib aliases active_types extending_types cherry_picked) = [] ∧
         blk.types.flatMap
          (new_enum_contrib aliases active_types extending_types active_enums
            cherry_picked) = [] ∧
         blk.enums.flatMap
          (extended_enum_contrib aliases active_enums cherry_picked) = []) := by
      intro blk hblk
      obtain ⟨ht, he⟩ := h blk hblk
      refine ⟨?_, ?_, ?_⟩
      · refine flatMap_eq_nil_of _ _ (fun tn htn => ?_)
        obtain ⟨h1, h2, _⟩ := ht tn htn
        unfold new_struct_contrib
        rw [if_neg]
        rintro ⟨hor, _⟩
        rcases hor with hor | hor
        · exact h1 hor
        · exact h2 hor
      · refine flatMap_eq_nil_of _ _ (fun tn htn => ?_)
        obtain ⟨_, _, h3⟩ := ht tn htn
        unfold new_enum_contrib
        rw [if_neg]
        rintro ⟨_, hmem, _⟩
        exact h3 hmem
      · refine flatMap_eq_nil_of _ _ (fun er her => ?_)
        unfold extended_enum_contrib
        by_cases h1 : er.name ∉ cherry_picked
        · rw [if_pos h1]
          cases hE : er.extends_ with
          | none => rfl
          | some tgt =>
            dsimp only
            rw [if_neg (he er her tgt hE)]
        · rw [if_neg h1]
    have hns : (collect_additions aliases struct_types active_types extending_types
        active_enums cherry_picked blocks).new_structs = [] := by
      rw [collect_additions_eq]
      exact flatMap_eq_nil_of _ _ (fun blk hblk => (hempty blk hblk).1)
    have hne : (collect_additions aliases struct_types active_types extending_types
        active_enums cherry_picked blocks).new_enums = [] := by
      rw [collect_additions_eq]
      exact flatMap_eq_nil_of _ _ (fun blk hblk => (hempty blk hblk).2.1)
    have hee : (collect_additions aliases struct_types active_types extending_types
        active_enums cherry_picked blocks).extended_enums = [] := by
      rw [collect_additions_eq]
      exact flatMap_eq_nil_of _ _ (fun blk hblk => (hempty blk hblk).2.2)
    unfold extension_section
    dsimp only
    rw [if_neg]
    simp [hns, hne, hee]

/-- C6 (witness): an extension whose requirement block references only
names absent from every active set produces an empty section. -/
theorem c6_witness :
    extension_section [] [] [] [] [] [] "VK_EXT_x" blocks6 = [] :=
  (c6_section_iff [] [] [] [] [] [] "VK_EXT_x" blocks6 [] [] []).2.2 (by
    intro blk hblk
    have hb : blk = ⟨["X6"], [⟨"E6", some "T6"⟩]⟩ := by
      simpa [blocks6] using hblk
    subst hb
    refine ⟨?_, ?_⟩
    · intro tn htn
      have htn' : tn = "X6" := by simpa using htn
      subst htn'
      exact ⟨by decide, by decide, by decide⟩
    · intro er her tgt _
      simp)

/-- C10: any type reference of the Additions loop whose alias-resolved
name is a known structure is recorded among the feature structures when
its EXTENDS set contains `VkPhysicalDeviceFeatures2`, and among the
property structures when it contains `VkPhysicalDeviceProperties2`, with
no cherry-pick or active-set condition; and these two lists alone never
cause a section to be emitted. -/
theorem c10_feature_property (aliases : List (String × String)) (struct_types : StructTable)
    (active_types extending_types active_enums cherry_picked : List String)
    (ext_name : String) (blocks : List RequireBlock) :
    (∀ blk ∈ blocks, ∀ tn ∈ blk.types,
        isKnown struct_types (resolveAlias aliases tn) = true →
        ("VkPhysicalDeviceFeatures2" ∈ extendsOf struct_types (resolveAlias aliases tn) →
          resolveAlias aliases tn ∈ (collect_additions aliases struct_types active_types
            extending_types active_enums cherry_picked blocks).feature_structs) ∧
        ("VkPhysicalDeviceProperties2" ∈ extendsOf struct_types (resolveAlias aliases tn) →
          resolveAlias aliases tn ∈ (collect_additions aliases struct_types active_types
            extending_types active_enums cherry_picked blocks).property_structs)) ∧
    ((collect_additions aliases struct_types active_types extending_types active_enums
        cherry_picked blocks).new_structs = [] →
     (collect_additions aliases struct_types active_types extending_types active_enums
        cherry_picked blocks).new_enums = [] →
     (collect_additions aliases struct_types active_types extending_types active_enums
        cherry_picked blocks).extended_enums = [] →
     extension_section aliases struct_types active_types extending_types active_enums
        cherry_picked ext_name blocks = []) := by
  constructor
  · intro blk hblk tn htn hK
    constructor
    · intro hF
      rw [collect_additions_eq]
      simp only [List.mem_flatMap]
      refine ⟨blk, hblk, tn, htn, ?_⟩
      unfold feature_contrib
      rw [if_pos ⟨hK, hF⟩]
      simp
    · intro hP
      rw [collect_additions_eq]
      simp only [List.mem_flatMap]
      refine ⟨blk, hblk, tn, htn, ?_⟩
      unfold property_contrib
      rw [if_pos ⟨hK, hP⟩]
      simp
  · intro h1 h2 h3
    unfold extension_section
    dsimp only
    rw [if_neg]
    simp [h1, h2, h3]

/-- C10 (witness): a structure chaining onto the device-feature aggregator
is recorded in the feature list even with every active set empty. -/
theorem c10_witness :
    "F10" ∈ (collect_additions [] tbl10 [] [] [] [] blocks10).feature_structs :=
  ((c10_feature_property [] tbl10 [] [] [] [] "VK_EXT_y" blocks10).1
    ⟨["F10", "P10"], []⟩ (by decide) "F10" (by decide) (by decide)).1 (by decide)

theorem scan_error_of_two : ∀ (ens : List SpirvEnable) (cv vk : Option String),
    2 ≤ (ens.filter (fun en => en.extension.isSome)).length +
        (if vk.isSome then 1 else 0) →
      ∃ msg, scan_enables ens cv vk = Except.error msg := by
  intro ens
  induction ens with
  | nil =>
    intro cv vk h
    cases vk <;> simp at h
  | cons en rest ih =>
    intro cv vk h
    cases he : en.extension with
    | some e =>
      cases vk with
      | some v =>
        exact ⟨"Cannot have more than one extension per SPIR-V extension.",
          by simp [scan_enables, he]⟩
      | none =>
        have h' : 2 ≤ (rest.filter (fun en => en.extension.isSome)).length +
            (if (some e : Option String).isSome then 1 else 0) := by
          simp only [List.filter_cons, he] at h ⊢
          simp at h ⊢
          omega
        obtain ⟨msg, hmsg⟩ :=
          ih (match en.version with | some v => some v | none => cv) (some e) h'
        exact ⟨msg, by simp [scan_enables, he, hmsg]⟩
    | none =>
      have h' : 2 ≤ (rest.filter (fun en => en.extension.isSome)).length +
          (if vk.isSome then 1 else 0) := by
        simpa [List.filter_cons, he] using h
      obtain ⟨msg, hmsg⟩ :=
        ih (match en.version with | some v => some v | none => cv) vk h'
      exact ⟨msg, by simp [scan_enables, he, hmsg]⟩

theorem spirv_table_error (exts : List SpirvExtension)
    (h : ∃ ext ∈ exts, 2 ≤ (ext.enables.filter (fun en => en.extension.isSome)).length) :
    (spirv_extensions_table exts).2.isSome = true := by
  induction exts with
  | nil => simp at h
  | cons e rest ih =>
    cases hscan : scan_enables e.enables none none with
    | error msg => simp [spirv_extensions_table, hscan]
    | ok pr =>
      obtain ⟨cv, vk⟩ := pr
      rcases h with ⟨ext, hext, hcount⟩
      rcases List.mem_cons.mp hext with rfl | hmem
      · exfalso
        obtain ⟨msg, hmsg⟩ := scan_error_of_two ext.enables none none (by simpa using hcount)
        rw [hscan] at hmsg
        simp at hmsg
      · have := ih ⟨ext, hmem, hcount⟩
        simpa [spirv_extensions_table, hscan] using this

/-- C4 (counterexample): a SPIR-V extension with two enabling-extension
conditions makes the run abort fatally, but the abort does not happen
before any output is produced: the report sections preceding the SPIR-V
extension table have already been printed. -/
theorem c4_counterexample :
    (main_report reg4 ledger0).2.isSome = true ∧
    (main_report reg4 ledger0).1 ≠ [] := by
  decide

/-- C4 (amended): whenever some SPIR-V extension declares two or more
enabling Vulkan-extension conditions, the run aborts fatally; the output
produced up to the abort is exactly the report sections preceding the
SPIR-V extension table followed by the table rows of the SPIR-V extensions
before the first offending one, and that output is never empty — so the
abort happens before the remaining SPIR-V output, not before all output. -/
theorem c4_abort (reg : Registry) (ledger : Ledger)
    (h : ∃ ext ∈ reg.spirvextensions,
      2 ≤ (ext.enables.filter (fun en => en.extension.isSome)).length) :
    (main_report reg ledger).2.isSome = true ∧
    (main_report reg ledger).1 =
      report_head reg ledger ++ (spirv_extensions_table reg.spirvextensions).1 ∧
    (main_report reg ledger).1 ≠ [] := by
  have herr := spirv_table_error reg.spirvextensions h
  cases htbl : spirv_extensions_table reg.spirvextensions with
  | mk rows err =>
    cases err with
    | none => rw [htbl] at herr; simp at herr
    | some msg =>
      refine ⟨?_, ?_, ?_⟩
      · simp [main_report, htbl]
      · simp [main_report, htbl]
      · simp only [main_report, htbl]
        simp [report_head]
  
theorem string_foldl_append (l : List String) :
    ∀ s : String, l.foldl (· ++ ·) s = s ++ l.foldl (· ++ ·) "" := by
  induction l with
  | nil => intro s; simp
  | cons a l ih =>
    intro s
    simp only [List.foldl_cons]
    rw [ih (s ++ a), ih ("" ++ a), String.empty_append, String.append_assoc]

theorem string_join_cons (a : String) (l : List String) :
    String.join (a :: l) = a ++ String.join l := by
  unfold String.join
  simp only [List.foldl_cons]
  rw [string_foldl_append l ("" ++ a), String.empty_append]

theorem build_step_lut (aliases : List (String × String)) (m : BuiltModel) (t : RawType) :
    (build_step aliases m t).shallow_copy_pnext_size_lut =
      m.shallow_copy_pnext_size_lut ++ lut_contrib aliases t := by
  cases t with
  | structDecl name se fmv mts =>
    cases se with
    | none => simp [build_step, lut_contrib]
    | some xs =>
      by_cases hc : (xs.map (resolveAlias aliases)).any
          (fun e => decide (e ∈ top_level_types_pipeline)) = true
      · simp [build_step, lut_contrib, hc]
      · simp [build_step, lut_contrib, hc]
  | enumDecl name =>
    by_cases hc : resolveAlias aliases name ≠ "VkStructureType" ∧
        resolveAlias aliases name ≠ "VkFormat" ∧ resolveAlias aliases name ≠ "VkObjectType"
    · simp [build_step, lut_contrib, hc]
    · simp [build_step, lut_contrib, hc]
  | bitmaskReq name req => simp [build_step, lut_contrib]
  | otherDecl => simp [build_step, lut_contrib]

/-- C5: the size-table text is exactly one row — the first declared
member's literal discriminant tag paired with `sizeof` of the structure —
for every struct declaration whose resolved EXTENDS set names at least one
pipeline root (even when it names several, thanks to the `break`), and no
text for any other declaration. -/
theorem c5_size_table (aliases : List (String × String)) (types : List RawType) :
    (build_model aliases types).shallow_copy_pnext_size_lut =
      String.join (types.map (lut_contrib aliases)) := by
  unfold build_model
  have key : ∀ (ts : List RawType) (m : BuiltModel),
      (ts.foldl (build_step aliases) m).shallow_copy_pnext_size_lut =
        m.shallow_copy_pnext_size_lut ++ String.join (ts.map (lut_contrib aliases)) := by
    intro ts
    induction ts with
    | nil => intro m; simp [String.join]
    | cons t ts ih =>
      intro m
      simp only [List.foldl_cons, List.map_cons]
      rw [ih, build_step_lut, string_join_cons, String.append_assoc]
  rw [key]
  simp [String.empty_append]

/-- C4 (witness): the amended abort theorem evaluated on the concrete
registry holding the offending SPIR-V extension. -/
theorem c4_witness :
    (main_report reg4 ledger0).2.isSome = true ∧
    (main_report reg4 ledger0).1 =
      report_head reg4 ledger0 ++ (spirv_extensions_table reg4.spirvextensions).1 ∧
    (main_report reg4 ledger0).1 ≠ [] :=
  c4_abort reg4 ledger0 ⟨ext4, by decide, by decide⟩
